import Mathlib

/-!
Verification of the tick-by-tick trading engine of this repository against its
design document.  The three strategy variants (`main.py`,
`strategies/mean_revert.py`, `strategies/arbitrary_regression.py`) are embedded
shallowly: every per-tick computation is a pure Lean function over exact
rationals (the Python floats carry exact half-integer values at the magnitudes
the strategies trade, so ℚ models them faithfully), and the mutable per-product
estimator state is threaded explicitly.
-/

namespace Prosperity

/-- An outgoing limit order: product symbol, integer price, signed quantity
(positive = buy, negative = sell).  Mirrors `datamodel.Order`. -/
structure Order where
  symbol : String
  price : ℤ
  quantity : ℤ
  deriving DecidableEq, Repr

/-- One side of a book: the integer price levels present.  The strategies only
ever read `max(buy_orders)` and `min(sell_orders)` (the dict keys), so resting
quantities are not modelled. -/
structure OrderDepth where
  buy_orders : List ℤ
  sell_orders : List ℤ
  deriving DecidableEq, Repr

/-- The per-tick snapshot passed to `Trader.run`: timestamp, per-product order
depths, and per-product signed positions, both as association lists. -/
structure TradingState where
  timestamp : ℤ
  order_depths : List (String × OrderDepth)
  position : List (String × ℤ)

/-- The fixed product universe iterated by every variant:
`for product in ['RAINFOREST_RESIN', 'KELP']`. -/
def products : List String := ["RAINFOREST_RESIN", "KELP"]

/-- Python's `round` on an exact value: round half to even (banker's
rounding). -/
def pythonRound (q : ℚ) : ℤ :=
  if q - ⌊q⌋ < 1/2 then ⌊q⌋
  else if 1/2 < q - ⌊q⌋ then ⌊q⌋ + 1
  else if ⌊q⌋ % 2 = 0 then ⌊q⌋ else ⌊q⌋ + 1

/-- Python's `int(...)` applied to a numeric value: truncation toward zero. -/
def pyTrunc (q : ℚ) : ℤ := if q < 0 then ⌈q⌉ else ⌊q⌋

/-- The smoothing factor `alpha = 0.1` shared by all variants. -/
def alpha : ℚ := 1/10

/-- Exponential smoothing update
`self.fair_values[product] = (1 - self.alpha) * old_fv + self.alpha * mid_market`. -/
def emaUpdate (old_fv mid : ℚ) : ℚ := (1 - alpha) * old_fv + alpha * mid

/-- The three-way decision outcome of the shared `if/elif/else` ladder. -/
inductive Mode where
  | unwindLong
  | coverShort
  | marketMake
  deriving DecidableEq, Repr

/-- A deviation threshold for one tick: either a rational from configuration,
or `statistics.stdev(residuals)`, i.e. the square root of the sample variance,
kept as the radicand `v` so that all arithmetic stays exact. -/
inductive Thresh where
  | ofRat : ℚ → Thresh
  | sqrtOf : ℚ → Thresh
  deriving DecidableEq, Repr

/-- `threshLt t x` means `θ < x` where `θ` is the threshold value `t` denotes.
For a square-root threshold `θ = √v` with `v ≥ 0` (a sample variance is never
negative), `√v < x ↔ 0 < x ∧ v < x ^ 2`, which is the exact rational form used
here. -/
def threshLt (t : Thresh) (x : ℚ) : Prop :=
  match t with
  | .ofRat θ => θ < x
  | .sqrtOf v => 0 < x ∧ v < x ^ 2

instance : ∀ (t : Thresh) (x : ℚ), Decidable (threshLt t x)
  | .ofRat θ, x => inferInstanceAs (Decidable (θ < x))
  | .sqrtOf v, x => inferInstanceAs (Decidable (0 < x ∧ v < x ^ 2))

/-- The decision ladder shared by all three variants:
`if mid > ref + θ and pos > 0` sell into strength, `elif mid < ref - θ and
pos < 0` buy into weakness, `else` make a market.  `ref` is the fair value the
variant compares against: the raw smoothed value in `main.py`, the
inventory-adjusted value in the other two. -/
def decideMode (mid ref : ℚ) (t : Thresh) (pos : ℤ) : Mode :=
  if threshLt t (mid - ref) ∧ 0 < pos then .unwindLong
  else if threshLt t (ref - mid) ∧ pos < 0 then .coverShort
  else .marketMake

/-! ### `main.py` -/

/-- `self.thresholds` of `main.py`. -/
def main_thresholds (p : String) : ℚ :=
  if p = "RAINFOREST_RESIN" then 10 else 2

/-- `self.position_limits` of `main.py` (both products 50). -/
def main_position_limits (_ : String) : ℤ := 50

/-- `self.initial_fair_values` of `main.py`. -/
def main_fair_values_init (p : String) : ℚ :=
  if p = "RAINFOREST_RESIN" then 10000 else 2028.5

/-- Order construction of `main.py` for one product, given the mid-price and
the already-updated fair value: the mean-reversion ladder with fixed
`quantity = 18`, and market making at `offset = 0.5` with each leg gated by
`current_position < limit` / `current_position > -limit`. -/
def mainOrders (mid fair_value : ℚ) (best_bid best_ask pos : ℤ)
    (product : String) : List Order :=
  let threshold := main_thresholds product
  let quantity : ℤ := 18
  let L := main_position_limits product
  let offset : ℚ := 1/2
  match decideMode mid fair_value (.ofRat threshold) pos with
  | .unwindLong => [Order.mk product best_bid (-(min quantity pos))]
  | .coverShort => [Order.mk product best_ask (min quantity (L - |pos|))]
  | .marketMake =>
      (if pos < L then [Order.mk product (pythonRound (mid - offset)) quantity]
       else []) ++
      (if -L < pos then [Order.mk product (pythonRound (mid + offset)) (-quantity)]
       else [])

/-- The body of `main.py`'s per-product loop after the one-sided-book check:
compute the mid, update the smoothed fair value, and build the orders against
the raw updated fair value. -/
def mainCore (fv_old : ℚ) (best_bid best_ask pos : ℤ) (product : String) :
    ℚ × List Order :=
  let mid : ℚ := ((best_bid : ℚ) + best_ask) / 2
  let fv := emaUpdate fv_old mid
  (fv, mainOrders mid fv best_bid best_ask pos product)

/-- One iteration of `main.py`'s product loop: `continue` when the product has
no depth entry or one side of its book is empty, otherwise run the core,
store the new fair value and record `result[product] = orders`. -/
def mainRunProduct (st : TradingState)
    (acc : (String → ℚ) × List (String × List Order)) (product : String) :
    (String → ℚ) × List (String × List Order) :=
  match st.order_depths.lookup product with
  | none => acc
  | some depth =>
    let pos := (st.position.lookup product).getD 0
    match depth.buy_orders.max?, depth.sell_orders.min? with
    | some bb, some ba =>
        let r := mainCore (acc.1 product) bb ba pos product
        (Function.update acc.1 product r.1, acc.2 ++ [(product, r.2)])
    | _, _ => acc

/-- `Trader.run` of `main.py`: fold the per-product step over the fixed product
universe, returning the updated fair-value table and the result mapping. -/
def mainRun (fv : String → ℚ) (st : TradingState) :
    (String → ℚ) × List (String × List Order) :=
  products.foldl (mainRunProduct st) (fv, [])

/-! ### `strategies/mean_revert.py` -/

/-- `self.base_thresholds` of `mean_revert.py`. -/
def mr_base_thresholds (p : String) : ℚ :=
  if p = "RAINFOREST_RESIN" then 3 else 2

/-- `self.position_limits` of `mean_revert.py`. -/
def mr_position_limits (_ : String) : ℤ := 50

/-- `self.base_order_sizes` of `mean_revert.py`. -/
def mr_base_order_sizes (p : String) : ℤ :=
  if p = "RAINFOREST_RESIN" then 30 else 20

/-- `self.inventory_adjustment_factor` of `mean_revert.py`. -/
def mr_inventory_adjustment_factor : ℚ := 1/10

/-- `self.base_offset` of `mean_revert.py`. -/
def mr_base_offset : ℚ := 2

/-- `self.min_spread` of `mean_revert.py`. -/
def mr_min_spread : ℚ := 2

/-- `self.fair_values` of `mean_revert.py` at construction. -/
def mr_fair_values_init (p : String) : ℚ :=
  if p = "RAINFOREST_RESIN" then 10000 else 2028.5

/-- Dynamic order sizing of `mean_revert.py`: full base size while
`abs(position) < 10`, otherwise scale down linearly but not below
`int(base * 0.5)`. -/
def mrDynamicSize (pos : ℤ) (product : String) : ℤ :=
  let base := mr_base_order_sizes product
  let L := mr_position_limits product
  if |pos| < 10 then base
  else
    let scale : ℚ := 1 - ((|pos| : ℚ) - 10) / ((L : ℚ) - 10)
    max (pyTrunc ((base : ℚ) * scale)) (pyTrunc ((base : ℚ) * (1/2)))

/-- Order construction of `mean_revert.py` for one product, given mid and
updated fair value: the same ladder as `main.py` but against the
inventory-adjusted fair value, with dynamic sizing and, in market-making mode,
an offset widened by half of any spread in excess of `min_spread`. -/
def mrOrders (mid fair_value : ℚ) (best_bid best_ask pos : ℤ)
    (product : String) : List Order :=
  let threshold := mr_base_thresholds product
  let L := mr_position_limits product
  let dynamic_size := mrDynamicSize pos product
  let adjusted_fv := fair_value - pos * mr_inventory_adjustment_factor
  match decideMode mid adjusted_fv (.ofRat threshold) pos with
  | .unwindLong => [Order.mk product best_bid (-(min dynamic_size pos))]
  | .coverShort => [Order.mk product best_ask (min dynamic_size (L - |pos|))]
  | .marketMake =>
      let spread : ℚ := (best_ask : ℚ) - best_bid
      let dynamic_offset :=
        mr_base_offset +
          (if mr_min_spread < spread then (spread - mr_min_spread) * (1/2) else 0)
      (if pos < L then
        [Order.mk product (pythonRound (mid - dynamic_offset)) dynamic_size]
       else []) ++
      (if -L < pos then
        [Order.mk product (pythonRound (mid + dynamic_offset)) (-dynamic_size)]
       else [])

/-- The body of `mean_revert.py`'s per-product loop after the one-sided-book
check. -/
def mrCore (fv_old : ℚ) (best_bid best_ask pos : ℤ) (product : String) :
    ℚ × List Order :=
  let mid : ℚ := ((best_bid : ℚ) + best_ask) / 2
  let fv := emaUpdate fv_old mid
  (fv, mrOrders mid fv best_bid best_ask pos product)

/-- One iteration of `mean_revert.py`'s product loop. -/
def mrRunProduct (st : TradingState)
    (acc : (String → ℚ) × List (String × List Order)) (product : String) :
    (String → ℚ) × List (String × List Order) :=
  match st.order_depths.lookup product with
  | none => acc
  | some depth =>
    let pos := (st.position.lookup product).getD 0
    match depth.buy_orders.max?, depth.sell_orders.min? with
    | some bb, some ba =>
        let r := mrCore (acc.1 product) bb ba pos product
        (Function.update acc.1 product r.1, acc.2 ++ [(product, r.2)])
    | _, _ => acc

/-- `Trader.run` of `mean_revert.py`. -/
def mrRun (fv : String → ℚ) (st : TradingState) :
    (String → ℚ) × List (String × List Order) :=
  products.foldl (mrRunProduct st) (fv, [])

/-! ### `strategies/arbitrary_regression.py` -/

/-- `self.thresholds` of `arbitrary_regression.py`. -/
def arb_thresholds (p : String) : ℚ :=
  if p = "RAINFOREST_RESIN" then 10 else 2

/-- `self.position_limits` of `arbitrary_regression.py`. -/
def arb_position_limits (_ : String) : ℤ := 50

/-- `self.fair_values` of `arbitrary_regression.py` (copied from
`base_fair_values` at construction and never mutated). -/
def arb_fair_values (p : String) : ℚ :=
  if p = "RAINFOREST_RESIN" then 10000 else 2028.5

/-- `self.inventory_adjustment_factor` of `arbitrary_regression.py`. -/
def arb_inventory_adjustment_factor : ℚ := 1/10

/-- `self.min_points = 10` of `arbitrary_regression.py`. -/
def arb_min_points : ℕ := 10

/-- `self.history_window = 50` of `arbitrary_regression.py`. -/
def arb_history_window : ℕ := 50

/-- `self.base_order_size = 18` of `arbitrary_regression.py`. -/
def arb_base_order_size : ℤ := 18

/-- `self.offset = 0.5` of `arbitrary_regression.py`. -/
def arb_offset : ℚ := 1/2

/-- History update of `arbitrary_regression.py`: append the `(time, mid)`
point and `pop(0)` (evict the oldest entry) once the length exceeds
`history_window`. -/
def historyStep (h : List (ℤ × ℚ)) (t : ℤ) (m : ℚ) : List (ℤ × ℚ) :=
  let h' := h ++ [(t, m)]
  if arb_history_window < h'.length then h'.drop 1 else h'

/-- Ordinary least squares line fit, the closed form of
`np.polyfit(times, prices, 1)`: returns `(slope, intercept)` minimising the
squared residuals (for distinct times; a degenerate design matrix never occurs
on the monotone timestamps the harness supplies). -/
def olsFit (pts : List (ℤ × ℚ)) : ℚ × ℚ :=
  let n : ℚ := pts.length
  let st : ℚ := (pts.map (fun tp => (tp.1 : ℚ))).sum
  let sp : ℚ := (pts.map (fun tp => tp.2)).sum
  let stt : ℚ := (pts.map (fun tp => (tp.1 : ℚ) ^ 2)).sum
  let stp : ℚ := (pts.map (fun tp => (tp.1 : ℚ) * tp.2)).sum
  let slope := (n * stp - st * sp) / (n * stt - st ^ 2)
  (slope, (sp - slope * st) / n)

/-- Sample variance with Bessel's correction; `statistics.stdev` is its square
root. -/
def sampleVar (rs : List ℚ) : ℚ :=
  let n : ℚ := rs.length
  let mean := rs.sum / n
  ((rs.map (fun r => (r - mean) ^ 2)).sum) / (n - 1)

/-- The RAINFOREST_RESIN estimator of `arbitrary_regression.py`: push the mid
into the bounded history; once at least `min_points` points are stored, fit a
line, predict one tick ahead and take the residuals' standard deviation as the
threshold; otherwise predict the raw mid and keep the base threshold.  The
returned fair value blends mid and prediction:
`(1 - alpha) * mid + alpha * predicted_fv`. -/
def arbEstimate (h : List (ℤ × ℚ)) (t : ℤ) (m : ℚ) :
    List (ℤ × ℚ) × ℚ × Thresh :=
  let h' := historyStep h t m
  let pt :=
    if arb_min_points ≤ h'.length then
      let fit := olsFit h'
      let residuals := h'.map (fun tp => tp.2 - (fit.1 * (tp.1 : ℚ) + fit.2))
      (fit.1 * ((t : ℚ) + 1) + fit.2,
       if 2 ≤ residuals.length then Thresh.sqrtOf (sampleVar residuals)
       else Thresh.ofRat (arb_thresholds "RAINFOREST_RESIN"))
    else (m, Thresh.ofRat (arb_thresholds "RAINFOREST_RESIN"))
  (h', (1 - alpha) * m + alpha * pt.1, pt.2)

/-- Order construction of `arbitrary_regression.py` for one product, given mid,
fair value and threshold: same ladder against the inventory-adjusted fair
value with fixed size 18; the market-making branch posts both legs
unconditionally at `round(mid ± offset)`. -/
def arbOrders (mid fair_value : ℚ) (t : Thresh) (best_bid best_ask pos : ℤ)
    (product : String) : List Order :=
  let dynamic_size := arb_base_order_size
  let adjusted_fv := fair_value - pos * arb_inventory_adjustment_factor
  match decideMode mid adjusted_fv t pos with
  | .unwindLong => [Order.mk product best_bid (-(min dynamic_size pos))]
  | .coverShort =>
      [Order.mk product best_ask
        (min dynamic_size (arb_position_limits product - |pos|))]
  | .marketMake =>
      [Order.mk product (pythonRound (mid - arb_offset)) dynamic_size,
       Order.mk product (pythonRound (mid + arb_offset)) (-dynamic_size)]

/-- The body of `arbitrary_regression.py`'s per-product loop after the
one-sided-book check: RAINFOREST_RESIN runs the regression estimator (and
mutates the history), KELP uses the static fair value and threshold. -/
def arbCore (h : List (ℤ × ℚ)) (t : ℤ) (best_bid best_ask pos : ℤ)
    (product : String) : List (ℤ × ℚ) × List Order :=
  let mid : ℚ := ((best_bid : ℚ) + best_ask) / 2
  let est :=
    if product = "RAINFOREST_RESIN" then arbEstimate h t mid
    else (h, arb_fair_values product, Thresh.ofRat (arb_thresholds product))
  (est.1, arbOrders mid est.2.1 est.2.2 best_bid best_ask pos product)

/-- One iteration of `arbitrary_regression.py`'s product loop. -/
def arbRunProduct (st : TradingState)
    (acc : List (ℤ × ℚ) × List (String × List Order)) (product : String) :
    List (ℤ × ℚ) × List (String × List Order) :=
  match st.order_depths.lookup product with
  | none => acc
  | some depth =>
    let pos := (st.position.lookup product).getD 0
    match depth.buy_orders.max?, depth.sell_orders.min? with
    | some bb, some ba =>
        let r := arbCore acc.1 st.timestamp bb ba pos product
        (r.1, acc.2 ++ [(product, r.2)])
    | _, _ => acc

/-- `Trader.run` of `arbitrary_regression.py`: the per-product estimator state
is the RAINFOREST_RESIN price history. -/
def arbRun (h : List (ℤ × ℚ)) (st : TradingState) :
    List (ℤ × ℚ) × List (String × List Order) :=
  products.foldl (arbRunProduct st) (h, [])

/-! ### Sanity checks of the embedding on the spec's worked scenario
(α = 0.1, f_old = 10000, mid = 10010 ⇒ f_new = 10001). -/

example : emaUpdate 10000 10010 = 10001 := by norm_num [emaUpdate, alpha]

example : pythonRound (2028.5 - 0.5) = 2028 := by with_unfolding_all decide
example : pythonRound (2028.5 + 0.5) = 2029 := by with_unfolding_all decide
example : pythonRound 2029.5 = 2030 := by with_unfolding_all decide
example : pythonRound 2030.5 = 2030 := by with_unfolding_all decide

/-! ### Helper lemmas -/

theorem pythonRound_le (q : ℚ) : (pythonRound q : ℚ) ≤ q + 1/2 := by
  have hf : (⌊q⌋ : ℚ) ≤ q := Int.floor_le q
  have hf1 : q < ⌊q⌋ + 1 := Int.lt_floor_add_one q
  unfold pythonRound
  split_ifs <;> push_cast <;> linarith

theorem le_pythonRound (q : ℚ) : q - 1/2 ≤ (pythonRound q : ℚ) := by
  have hf : (⌊q⌋ : ℚ) ≤ q := Int.floor_le q
  have hf1 : q < ⌊q⌋ + 1 := Int.lt_floor_add_one q
  unfold pythonRound
  split_ifs <;> push_cast <;> linarith

/-- Monotonicity of banker's rounding across a gap of at least one. -/
theorem pythonRound_le_pythonRound {a b : ℚ} (h : 1 ≤ b - a) :
    pythonRound a ≤ pythonRound b := by
  have h1 := pythonRound_le a
  have h2 := le_pythonRound b
  exact_mod_cast (by linarith : (pythonRound a : ℚ) ≤ (pythonRound b : ℚ))

theorem threshLt_ofRat (θ x : ℚ) : threshLt (.ofRat θ) x ↔ θ < x := Iff.rfl

theorem decideMode_eq_unwindLong {mid ref : ℚ} {t : Thresh} {pos : ℤ}
    (h : decideMode mid ref t pos = .unwindLong) :
    threshLt t (mid - ref) ∧ 0 < pos := by
  unfold decideMode at h
  split_ifs at h with h1 h2
  all_goals exact h1

theorem decideMode_eq_coverShort {mid ref : ℚ} {t : Thresh} {pos : ℤ}
    (h : decideMode mid ref t pos = .coverShort) :
    threshLt t (ref - mid) ∧ pos < 0 := by
  unfold decideMode at h
  split_ifs at h with h1 h2
  all_goals exact h2

/-- The dynamic order size of `mean_revert.py` is always positive: below the
breakpoint it is the base size (30 or 20), above it the `max` with
`int(base * 0.5)` (15 or 10) floors it. -/
theorem mrDynamicSize_pos (pos : ℤ) (product : String) :
    0 < mrDynamicSize pos product := by
  simp only [mrDynamicSize, mr_base_order_sizes, mr_position_limits]
  split_ifs with h1 h2 h2
  · norm_num
  · norm_num
  · refine lt_of_lt_of_le ?_ (le_max_right _ _)
    norm_num [pyTrunc]
  · refine lt_of_lt_of_le ?_ (le_max_right _ _)
    norm_num [pyTrunc]

/-! ### C4 — smoothing convexity -/

/-- C4: for every previous fair value `f` and mid-price `m`, the exponential
smoothing update with `alpha = 0.1` stays between `min f m` and `max f m`
inclusive. -/
theorem smoothing_convex (f m : ℚ) :
    min f m ≤ emaUpdate f m ∧ emaUpdate f m ≤ max f m := by
  unfold emaUpdate alpha
  rcases le_total f m with h | h
  · rw [min_eq_left h, max_eq_right h]
    constructor <;> linarith
  · rw [min_eq_right h, max_eq_left h]
    constructor <;> linarith

/-! ### C5 — regression cold start -/

/-- C5: in regression mode, on a tick where the history after appending the
current point still has fewer than `min_points` entries, the blended fair
value `(1 - alpha) * mid + alpha * mid` collapses to the raw mid-price exactly
and the threshold is the configured base threshold. -/
theorem regression_cold_start (h : List (ℤ × ℚ)) (t : ℤ) (m : ℚ)
    (hlen : (historyStep h t m).length < arb_min_points) :
    (arbEstimate h t m).2.1 = m ∧
      (arbEstimate h t m).2.2 =
        Thresh.ofRat (arb_thresholds "RAINFOREST_RESIN") := by
  have hnot : ¬ arb_min_points ≤ (historyStep h t m).length := by omega
  simp only [arbEstimate, hnot, if_false]
  constructor
  · unfold alpha
    ring
  · trivial

theorem regression_cold_start_witness :
    (arbEstimate [] 0 5).2.1 = 5 ∧
      (arbEstimate [] 0 5).2.2 =
        Thresh.ofRat (arb_thresholds "RAINFOREST_RESIN") :=
  regression_cold_start [] 0 5 (by with_unfolding_all decide)

/-! ### C9 — bounded history window -/

theorem historyStep_length_le (h : List (ℤ × ℚ)) (t : ℤ) (m : ℚ)
    (hh : h.length ≤ arb_history_window) :
    (historyStep h t m).length ≤ arb_history_window := by
  simp only [historyStep]
  split_ifs with hlt
  · simp only [List.length_drop, List.length_append, List.length_singleton]
    omega
  · simp only [List.length_append, List.length_singleton] at hlt ⊢
    omega

theorem historyStep_foldl_length (ticks : List (ℤ × ℚ)) :
    ∀ h : List (ℤ × ℚ), h.length ≤ arb_history_window →
      ((ticks.foldl (fun acc tm => historyStep acc tm.1 tm.2) h).length ≤
        arb_history_window) := by
  induction ticks with
  | nil => intro h hh; exact hh
  | cons hd tl ih =>
      intro h hh
      exact ih _ (historyStep_length_le h hd.1 hd.2 hh)

/-- C9: starting from the empty history, after any sequence of ticks the
stored history never exceeds `history_window` entries, and once the window is
full the update drops exactly the oldest entry before keeping the new point
(FIFO eviction). -/
theorem history_window_bound :
    (∀ ticks : List (ℤ × ℚ),
        ((ticks.foldl (fun acc tm => historyStep acc tm.1 tm.2) []).length ≤
          arb_history_window)) ∧
      (∀ (h : List (ℤ × ℚ)) (t : ℤ) (m : ℚ), h.length = arb_history_window →
        historyStep h t m = h.drop 1 ++ [(t, m)]) := by
  constructor
  · intro ticks
    exact historyStep_foldl_length ticks [] (by simp)
  · intro h t m hfull
    have hne : h ≠ [] := by
      intro hnil
      rw [hnil] at hfull
      simp [arb_history_window] at hfull
    simp only [historyStep]
    rw [if_pos (by simp [List.length_append]; omega)]
    rcases h with _ | ⟨hd, tl⟩
    · exact absurd rfl hne
    · simp

theorem history_window_bound_witness :
    ((([((1 : ℤ), (2 : ℚ)), (3, 4)]).foldl
        (fun acc tm => historyStep acc tm.1 tm.2) []).length ≤
      arb_history_window) ∧
      historyStep (List.replicate 50 ((0 : ℤ), (0 : ℚ))) 7 9 =
        (List.replicate 50 ((0 : ℤ), (0 : ℚ))).drop 1 ++ [(7, 9)] :=
  ⟨history_window_bound.1 [((1 : ℤ), (2 : ℚ)), (3, 4)],
   history_window_bound.2 (List.replicate 50 ((0 : ℤ), (0 : ℚ))) 7 9
     (by with_unfolding_all decide)⟩

/-! ### C3 — decision against the inventory-adjusted fair value -/

/-- C3 (amended): both `mean_revert.py` and `arbitrary_regression.py` evaluate
the decision ladder against the inventory-adjusted fair value
`adjusted_f = f - k·p`, in the stated priority: the single unwind sell of
`min(size, p)` at the best bid exactly when `mid > adjusted_f + θ` and
`p > 0`; otherwise the single cover buy of `min(size, L - |p|)` at the best
ask exactly when `mid < adjusted_f - θ` and `p < 0`; otherwise the
market-making branch (`threshLt t x` spells `θ < x` for the tick's threshold
`t`, which in `arbitrary_regression.py` may be the residuals' standard
deviation).  `main.py`, by contrast, compares `mid` against the raw smoothed
fair value and never applies its configured `inventory_adjustment_factor`. -/
theorem decision_uses_adjusted_fair_value :
    ∀ (mid fair : ℚ) (bb ba pos : ℤ) (product : String),
      ((fair - pos * mr_inventory_adjustment_factor) +
            mr_base_thresholds product < mid ∧ 0 < pos →
        mrOrders mid fair bb ba pos product =
          [Order.mk product bb (-(min (mrDynamicSize pos product) pos))]) ∧
      (¬((fair - pos * mr_inventory_adjustment_factor) +
            mr_base_thresholds product < mid ∧ 0 < pos) →
        (mid < (fair - pos * mr_inventory_adjustment_factor) -
            mr_base_thresholds product ∧ pos < 0) →
        mrOrders mid fair bb ba pos product =
          [Order.mk product ba
            (min (mrDynamicSize pos product) (50 - |pos|))]) ∧
      (¬((fair - pos * mr_inventory_adjustment_factor) +
            mr_base_thresholds product < mid ∧ 0 < pos) →
        ¬(mid < (fair - pos * mr_inventory_adjustment_factor) -
            mr_base_thresholds product ∧ pos < 0) →
        mrOrders mid fair bb ba pos product =
          (if pos < 50 then
            [Order.mk product (pythonRound (mid - (mr_base_offset +
              (if mr_min_spread < (ba : ℚ) - bb
               then ((ba : ℚ) - bb - mr_min_spread) * (1/2) else 0))))
              (mrDynamicSize pos product)]
           else []) ++
          (if -50 < pos then
            [Order.mk product (pythonRound (mid + (mr_base_offset +
              (if mr_min_spread < (ba : ℚ) - bb
               then ((ba : ℚ) - bb - mr_min_spread) * (1/2) else 0))))
              (-(mrDynamicSize pos product))]
           else [])) ∧
      (∀ t : Thresh,
        (threshLt t
            (mid - (fair - pos * arb_inventory_adjustment_factor)) ∧ 0 < pos →
          arbOrders mid fair t bb ba pos product =
            [Order.mk product bb (-(min 18 pos))]) ∧
        (¬(threshLt t
            (mid - (fair - pos * arb_inventory_adjustment_factor)) ∧ 0 < pos) →
          (threshLt t
            ((fair - pos * arb_inventory_adjustment_factor) - mid) ∧ pos < 0) →
          arbOrders mid fair t bb ba pos product =
            [Order.mk product ba (min 18 (50 - |pos|))]) ∧
        (¬(threshLt t
            (mid - (fair - pos * arb_inventory_adjustment_factor)) ∧ 0 < pos) →
          ¬(threshLt t
            ((fair - pos * arb_inventory_adjustment_factor) - mid) ∧ pos < 0) →
          arbOrders mid fair t bb ba pos product =
            [Order.mk product (pythonRound (mid - 1/2)) 18,
             Order.mk product (pythonRound (mid + 1/2)) (-18)])) := by
  intro mid fair bb ba pos product
  refine ⟨?_, ?_, ?_, ?_⟩
  · intro h
    have hc : threshLt (.ofRat (mr_base_thresholds product))
        (mid - (fair - pos * mr_inventory_adjustment_factor)) ∧ 0 < pos :=
      ⟨by rw [threshLt_ofRat]; linarith [h.1], h.2⟩
    have hm : decideMode mid (fair - pos * mr_inventory_adjustment_factor)
        (.ofRat (mr_base_thresholds product)) pos = .unwindLong := by
      unfold decideMode
      rw [if_pos hc]
    simp only [mrOrders, mr_position_limits, hm]
  · intro hn h
    have hc1 : ¬(threshLt (.ofRat (mr_base_thresholds product))
        (mid - (fair - pos * mr_inventory_adjustment_factor)) ∧ 0 < pos) := by
      intro hcc
      refine hn ⟨?_, hcc.2⟩
      have := hcc.1
      rw [threshLt_ofRat] at this
      linarith
    have hc2 : threshLt (.ofRat (mr_base_thresholds product))
        ((fair - pos * mr_inventory_adjustment_factor) - mid) ∧ pos < 0 :=
      ⟨by rw [threshLt_ofRat]; linarith [h.1], h.2⟩
    have hm : decideMode mid (fair - pos * mr_inventory_adjustment_factor)
        (.ofRat (mr_base_thresholds product)) pos = .coverShort := by
      unfold decideMode
      rw [if_neg hc1, if_pos hc2]
    simp only [mrOrders, mr_position_limits, hm]
  · intro hn1 hn2
    have hc1 : ¬(threshLt (.ofRat (mr_base_thresholds product))
        (mid - (fair - pos * mr_inventory_adjustment_factor)) ∧ 0 < pos) := by
      intro hcc
      refine hn1 ⟨?_, hcc.2⟩
      have := hcc.1
      rw [threshLt_ofRat] at this
      linarith
    have hc2 : ¬(threshLt (.ofRat (mr_base_thresholds product))
        ((fair - pos * mr_inventory_adjustment_factor) - mid) ∧ pos < 0) := by
      intro hcc
      refine hn2 ⟨?_, hcc.2⟩
      have := hcc.1
      rw [threshLt_ofRat] at this
      linarith
    have hm : decideMode mid (fair - pos * mr_inventory_adjustment_factor)
        (.ofRat (mr_base_thresholds product)) pos = .marketMake := by
      unfold decideMode
      rw [if_neg hc1, if_neg hc2]
    simp only [mrOrders, mr_position_limits, hm]
  · intro t
    refine ⟨?_, ?_, ?_⟩
    · intro hA
      have hm : decideMode mid (fair - pos * arb_inventory_adjustment_factor)
          t pos = .unwindLong := by
        unfold decideMode
        rw [if_pos hA]
      simp only [arbOrders, arb_base_order_size, hm]
    · intro hnA hB
      have hm : decideMode mid (fair - pos * arb_inventory_adjustment_factor)
          t pos = .coverShort := by
        unfold decideMode
        rw [if_neg hnA, if_pos hB]
      simp only [arbOrders, arb_position_limits, arb_base_order_size, hm]
    · intro hnA hnB
      have hm : decideMode mid (fair - pos * arb_inventory_adjustment_factor)
          t pos = .marketMake := by
        unfold decideMode
        rw [if_neg hnA, if_neg hnB]
      simp only [arbOrders, arb_base_order_size, arb_offset, hm]

set_option maxRecDepth 40000 in
theorem decision_uses_adjusted_fair_value_witness :
    (mrOrders 10010 10000 10008 10012 20 "RAINFOREST_RESIN" =
      [Order.mk "RAINFOREST_RESIN" 10008
        (-(min (mrDynamicSize 20 "RAINFOREST_RESIN") 20))]) ∧
      (arbOrders 2040 2028.5 (.ofRat 2) 2039 2041 20 "KELP" =
        [Order.mk "KELP" 2039 (-(min 18 20))]) :=
  ⟨(decision_uses_adjusted_fair_value 10010 10000 10008 10012 20
        "RAINFOREST_RESIN").1
      (by constructor
          · with_unfolding_all decide
          · decide),
   ((decision_uses_adjusted_fair_value 2040 2028.5 2039 2041 20 "KELP").2.2.2
        (.ofRat 2)).1
      (by constructor
          · with_unfolding_all decide
          · decide)⟩

set_option maxRecDepth 100000 in
/-- C3 counterexample: for `main.py` on KELP with position 20 and a 2029/2031
book (mid 2030, updated fair value 2028.65), the inventory-adjusted unwind
condition `mid > (f - k·p) + θ` holds with `p > 0`, yet the engine selects
MARKET_MAKE (it compares against the raw fair value) and emits the two quoting
orders instead of the single unwind sell at the best bid 2029. -/
theorem decision_adjusted_counterexample :
    ((emaUpdate 2028.5 2030 - 20 * (1/10 : ℚ)) + 2 < 2030 ∧ (0 : ℤ) < 20) ∧
      decideMode 2030 (emaUpdate 2028.5 2030)
          (.ofRat (main_thresholds "KELP")) 20 = Mode.marketMake ∧
      (mainRun main_fair_values_init
          (TradingState.mk 0 [("KELP", OrderDepth.mk [2029] [2031])]
            [("KELP", 20)])).2 =
        [("KELP", [Order.mk "KELP" 2030 18, Order.mk "KELP" 2030 (-18)])] := by
  refine ⟨⟨?_, by decide⟩, ?_, ?_⟩
  · with_unfolding_all decide
  · with_unfolding_all decide
  · with_unfolding_all decide

/-! ### C6 — market-making headroom gating -/

/-- C6 (amended): in `mean_revert.py` the market-making legs are independently
gated by headroom: in MARKET_MAKE mode a positive-quantity (buy) order is
emitted iff `p < L`, a negative-quantity (sell) order iff `p > -L`, buys
priced at `round(mid - offset)` and sells at `round(mid + offset)`.  In
`arbitrary_regression.py` the MARKET_MAKE branch is not gated at all: it
always emits both legs, including a buy when `p = L`. -/
theorem mm_headroom_gating :
    ∀ (mid fair : ℚ) (bb ba pos : ℤ) (product : String),
      (decideMode mid (fair - pos * mr_inventory_adjustment_factor)
          (.ofRat (mr_base_thresholds product)) pos = .marketMake →
        ((∃ o ∈ mrOrders mid fair bb ba pos product, 0 < o.quantity) ↔
            pos < 50) ∧
        ((∃ o ∈ mrOrders mid fair bb ba pos product, o.quantity < 0) ↔
            -50 < pos) ∧
        (∀ o ∈ mrOrders mid fair bb ba pos product,
          (0 < o.quantity →
            o.price = pythonRound (mid - (mr_base_offset +
              (if mr_min_spread < (ba : ℚ) - bb
               then ((ba : ℚ) - bb - mr_min_spread) * (1/2) else 0)))) ∧
          (o.quantity < 0 →
            o.price = pythonRound (mid + (mr_base_offset +
              (if mr_min_spread < (ba : ℚ) - bb
               then ((ba : ℚ) - bb - mr_min_spread) * (1/2) else 0)))))) ∧
      (∀ t : Thresh,
        decideMode mid (fair - pos * arb_inventory_adjustment_factor) t pos =
            .marketMake →
        arbOrders mid fair t bb ba pos product =
          [Order.mk product (pythonRound (mid - arb_offset)) 18,
           Order.mk product (pythonRound (mid + arb_offset)) (-18)]) := by
  intro mid fair bb ba pos product
  constructor
  · intro hm
    have hdyn := mrDynamicSize_pos pos product
    simp only [mrOrders, mr_position_limits, hm]
    by_cases h1 : pos < 50 <;> by_cases h2 : -50 < pos <;>
      simp only [h1, h2, if_true, if_false, ite_true, ite_false,
        List.nil_append, List.append_nil, List.mem_singleton, List.mem_cons,
        List.mem_append, List.not_mem_nil, List.cons_append, or_false,
        false_or, iff_true, iff_false, List.singleton_append] <;>
      constructor
    · exact ⟨_, Or.inl rfl, hdyn⟩
    · constructor
      · exact ⟨_, Or.inr rfl, by dsimp only; omega⟩
      · rintro o (rfl | rfl)
        · exact ⟨fun _ => rfl, fun hcon => by dsimp only at hcon; omega⟩
        · exact ⟨fun hcon => by dsimp only at hcon; omega, fun _ => rfl⟩
    · exact ⟨_, rfl, hdyn⟩
    · constructor
      · rintro ⟨o, rfl, hq⟩
        dsimp only at hq
        omega
      · rintro o rfl
        exact ⟨fun _ => rfl, fun hcon => by dsimp only at hcon; omega⟩
    · rintro ⟨o, rfl, hq⟩
      dsimp only at hq
      omega
    · constructor
      · exact ⟨_, rfl, by dsimp only; omega⟩
      · rintro o rfl
        exact ⟨fun hcon => by dsimp only at hcon; omega, fun _ => rfl⟩
    · rintro ⟨o, h, -⟩
      exact h
    · exact ⟨fun ⟨_, h, _⟩ => h, fun o h => h.elim⟩
  · intro t hm
    simp only [arbOrders, arb_base_order_size, arb_offset, hm]

set_option maxRecDepth 40000 in
theorem mm_headroom_gating_witness :
    arbOrders 2025 2028.5 (.ofRat 2) 2020 2030 50 "KELP" =
      [Order.mk "KELP" (pythonRound (2025 - arb_offset)) 18,
       Order.mk "KELP" (pythonRound (2025 + arb_offset)) (-18)] :=
  (mm_headroom_gating 2025 2028.5 2020 2030 50 "KELP").2 (.ofRat 2)
    (by with_unfolding_all decide)

set_option maxRecDepth 100000 in
/-- C6 counterexample: in `arbitrary_regression.py`, a KELP tick with book
2020/2030 and position exactly at the limit 50 still lands in MARKET_MAKE and
emits *both* legs, including the buy order of 18 at 2024 — the claim says no
buy leg may be emitted at `p = L`. -/
theorem mm_headroom_gating_counterexample :
    (arbRun []
        (TradingState.mk 0 [("KELP", OrderDepth.mk [2020] [2030])]
          [("KELP", 50)])).2 =
      [("KELP", [Order.mk "KELP" 2024 18, Order.mk "KELP" 2026 (-18)])] ∧
      (50 : ℤ) = arb_position_limits "KELP" := by
  constructor
  · with_unfolding_all decide
  · decide

/-! ### Run-level lemmas: skipping and result entries -/

/-- A product is tradable this tick when its snapshot carries a depth entry
with both a best bid and a best ask. -/
def tradable (st : TradingState) (p : String) : Prop :=
  ∃ d, st.order_depths.lookup p = some d ∧
    d.buy_orders ≠ [] ∧ d.sell_orders ≠ []

theorem max?_eq_none_iff_nil (l : List ℤ) : l.max? = none ↔ l = [] := by
  cases l <;> simp [List.max?]

theorem min?_eq_none_iff_nil (l : List ℤ) : l.min? = none ↔ l = [] := by
  cases l <;> simp [List.min?]

theorem lookup_append_right_ne {β : Type} (l : List (String × β)) {q p : String}
    (v : β) (h : q ≠ p) : (l ++ [(p, v)]).lookup q = l.lookup q := by
  induction l with
  | nil =>
      have hbeq : (q == p) = false := beq_eq_false_iff_ne.mpr h
      simp [List.lookup, hbeq]
  | cons hd tl ih =>
      rcases hd with ⟨k, b⟩
      cases hqk : q == k <;> simp [List.lookup, hqk, ih]

theorem lookup_append_self {β : Type} (l : List (String × β)) (p : String)
    (v : β) (h : l.lookup p = none) : (l ++ [(p, v)]).lookup p = some v := by
  induction l with
  | nil => simp [List.lookup]
  | cons hd tl ih =>
      rcases hd with ⟨k, b⟩
      cases hqk : p == k
      · simp only [List.lookup, hqk] at h
        simp [List.lookup, hqk, ih h]
      · simp [List.lookup, hqk] at h

theorem mainRunProduct_skip_onesided (st : TradingState)
    (acc : (String → ℚ) × List (String × List Order)) (p : String)
    (d : OrderDepth) (hd : st.order_depths.lookup p = some d)
    (he : d.buy_orders = [] ∨ d.sell_orders = []) :
    mainRunProduct st acc p = acc := by
  simp only [mainRunProduct, hd]
  rcases he with he | he
  · rw [he]
    rfl
  · rcases hmb : d.buy_orders.max? with _ | bb <;> rw [he]
    rfl

theorem mainRunProduct_lookup_ne (st : TradingState)
    (acc : (String → ℚ) × List (String × List Order)) (q p : String)
    (h : q ≠ p) :
    (mainRunProduct st acc p).2.lookup q = acc.2.lookup q := by
  simp only [mainRunProduct]
  rcases st.order_depths.lookup p with _ | d
  · rfl
  · dsimp only
    rcases d.buy_orders.max? with _ | bb <;> rcases d.sell_orders.min? with _ | ba <;>
      first
        | rfl
        | exact lookup_append_right_ne acc.2 _ h

theorem mainRunProduct_fv_ne (st : TradingState)
    (acc : (String → ℚ) × List (String × List Order)) (q p : String)
    (h : q ≠ p) :
    (mainRunProduct st acc p).1 q = acc.1 q := by
  simp only [mainRunProduct]
  rcases st.order_depths.lookup p with _ | d
  · rfl
  · dsimp only
    rcases d.buy_orders.max? with _ | bb <;> rcases d.sell_orders.min? with _ | ba <;>
      first
        | rfl
        | exact Function.update_noteq h _ _

theorem mainRunProduct_entry (st : TradingState)
    (acc : (String → ℚ) × List (String × List Order)) (p : String)
    (hacc : acc.2.lookup p = none) :
    ((mainRunProduct st acc p).2.lookup p).isSome = true ↔ tradable st p := by
  unfold tradable
  simp only [mainRunProduct]
  rcases hd : st.order_depths.lookup p with _ | d
  · simp [hacc]
  · dsimp only
    rcases hmb : d.buy_orders.max? with _ | bb
    · have : d.buy_orders = [] := (max?_eq_none_iff_nil _).mp hmb
      simp [hacc, this]
    · rcases hms : d.sell_orders.min? with _ | ba
      · have : d.sell_orders = [] := (min?_eq_none_iff_nil _).mp hms
        simp [hacc, this]
      · have hb : d.buy_orders ≠ [] := by
          intro hnil
          rw [hnil] at hmb
          simp [List.max?] at hmb
        have hs : d.sell_orders ≠ [] := by
          intro hnil
          rw [hnil] at hms
          simp [List.min?] at hms
        simp [lookup_append_self acc.2 p _ hacc, hb, hs]

theorem mrRunProduct_skip_onesided (st : TradingState)
    (acc : (String → ℚ) × List (String × List Order)) (p : String)
    (d : OrderDepth) (hd : st.order_depths.lookup p = some d)
    (he : d.buy_orders = [] ∨ d.sell_orders = []) :
    mrRunProduct st acc p = acc := by
  simp only [mrRunProduct, hd]
  rcases he with he | he
  · rw [he]
    rfl
  · rcases hmb : d.buy_orders.max? with _ | bb <;> rw [he]
    rfl

theorem mrRunProduct_lookup_ne (st : TradingState)
    (acc : (String → ℚ) × List (String × List Order)) (q p : String)
    (h : q ≠ p) :
    (mrRunProduct st acc p).2.lookup q = acc.2.lookup q := by
  simp only [mrRunProduct]
  rcases st.order_depths.lookup p with _ | d
  · rfl
  · dsimp only
    rcases d.buy_orders.max? with _ | bb <;> rcases d.sell_orders.min? with _ | ba <;>
      first
        | rfl
        | exact lookup_append_right_ne acc.2 _ h

theorem mrRunProduct_entry (st : TradingState)
    (acc : (String → ℚ) × List (String × List Order)) (p : String)
    (hacc : acc.2.lookup p = none) :
    ((mrRunProduct st acc p).2.lookup p).isSome = true ↔ tradable st p := by
  unfold tradable
  simp only [mrRunProduct]
  rcases hd : st.order_depths.lookup p with _ | d
  · simp [hacc]
  · dsimp only
    rcases hmb : d.buy_orders.max? with _ | bb
    · have : d.buy_orders = [] := (max?_eq_none_iff_nil _).mp hmb
      simp [hacc, this]
    · rcases hms : d.sell_orders.min? with _ | ba
      · have : d.sell_orders = [] := (min?_eq_none_iff_nil _).mp hms
        simp [hacc, this]
      · have hb : d.buy_orders ≠ [] := by
          intro hnil
          rw [hnil] at hmb
          simp [List.max?] at hmb
        have hs : d.sell_orders ≠ [] := by
          intro hnil
          rw [hnil] at hms
          simp [List.min?] at hms
        simp [lookup_append_self acc.2 p _ hacc, hb, hs]

theorem arbRunProduct_skip_onesided (st : TradingState)
    (acc : List (ℤ × ℚ) × List (String × List Order)) (p : String)
    (d : OrderDepth) (hd : st.order_depths.lookup p = some d)
    (he : d.buy_orders = [] ∨ d.sell_orders = []) :
    arbRunProduct st acc p = acc := by
  simp only [arbRunProduct, hd]
  rcases he with he | he
  · rw [he]
    rfl
  · rcases hmb : d.buy_orders.max? with _ | bb <;> rw [he]
    rfl

theorem arbRunProduct_lookup_ne (st : TradingState)
    (acc : List (ℤ × ℚ) × List (String × List Order)) (q p : String)
    (h : q ≠ p) :
    (arbRunProduct st acc p).2.lookup q = acc.2.lookup q := by
  simp only [arbRunProduct]
  rcases st.order_depths.lookup p with _ | d
  · rfl
  · dsimp only
    rcases d.buy_orders.max? with _ | bb <;> rcases d.sell_orders.min? with _ | ba <;>
      first
        | rfl
        | exact lookup_append_right_ne acc.2 _ h

/-- The KELP branch of `arbitrary_regression.py` never touches the
RAINFOREST_RESIN history. -/
theorem arbRunProduct_kelp_state (st : TradingState)
    (acc : List (ℤ × ℚ) × List (String × List Order)) :
    (arbRunProduct st acc "KELP").1 = acc.1 := by
  simp only [arbRunProduct]
  rcases st.order_depths.lookup "KELP" with _ | d
  · rfl
  · dsimp only
    rcases d.buy_orders.max? with _ | bb <;> rcases d.sell_orders.min? with _ | ba <;> rfl

/-! ### C7 — one-sided books are skipped without orders or state change -/

/-- C7: a product present in the snapshot whose bid map or ask map is empty is
skipped for the tick: `main.py` records no result entry for it and leaves its
smoothed fair value unchanged, and `arbitrary_regression.py` records no result
entry and leaves the price history unchanged whenever the skipped product is
RAINFOREST_RESIN (the only product with history state). -/
theorem skip_one_sided_book :
    ∀ (fv : String → ℚ) (h : List (ℤ × ℚ)) (st : TradingState) (p : String)
      (d : OrderDepth), p ∈ products →
      st.order_depths.lookup p = some d →
      d.buy_orders = [] ∨ d.sell_orders = [] →
      ((mainRun fv st).2.lookup p = none ∧ (mainRun fv st).1 p = fv p) ∧
      ((arbRun h st).2.lookup p = none ∧
        (p = "RAINFOREST_RESIN" → (arbRun h st).1 = h)) := by
  intro fv h st p d hp hd he
  simp only [products, List.mem_cons, List.not_mem_nil, or_false] at hp
  rcases hp with rfl | rfl
  · have hskipm := mainRunProduct_skip_onesided st (fv, []) _ d hd he
    have hskipa := arbRunProduct_skip_onesided st (h, []) _ d hd he
    refine ⟨⟨?_, ?_⟩, ?_, fun _ => ?_⟩
    · simp only [mainRun, products, List.foldl, hskipm]
      rw [mainRunProduct_lookup_ne st (fv, []) _ _
        (by decide : "RAINFOREST_RESIN" ≠ "KELP")]
      rfl
    · simp only [mainRun, products, List.foldl, hskipm]
      rw [mainRunProduct_fv_ne st (fv, []) _ _
        (by decide : "RAINFOREST_RESIN" ≠ "KELP")]
    · simp only [arbRun, products, List.foldl, hskipa]
      rw [arbRunProduct_lookup_ne st (h, []) _ _
        (by decide : "RAINFOREST_RESIN" ≠ "KELP")]
      rfl
    · simp only [arbRun, products, List.foldl, hskipa]
      rw [arbRunProduct_kelp_state st (h, [])]
  · have hskipm := mainRunProduct_skip_onesided st
      (mainRunProduct st (fv, []) "RAINFOREST_RESIN") _ d hd he
    have hskipa := arbRunProduct_skip_onesided st
      (arbRunProduct st (h, []) "RAINFOREST_RESIN") _ d hd he
    refine ⟨⟨?_, ?_⟩, ?_, fun habs => absurd habs (by decide)⟩
    · simp only [mainRun, products, List.foldl, hskipm]
      rw [mainRunProduct_lookup_ne st (fv, []) _ _
        (by decide : "KELP" ≠ "RAINFOREST_RESIN")]
      rfl
    · simp only [mainRun, products, List.foldl, hskipm]
      rw [mainRunProduct_fv_ne st (fv, []) _ _
        (by decide : "KELP" ≠ "RAINFOREST_RESIN")]
    · simp only [arbRun, products, List.foldl, hskipa]
      rw [arbRunProduct_lookup_ne st (h, []) _ _
        (by decide : "KELP" ≠ "RAINFOREST_RESIN")]
      rfl

theorem skip_one_sided_book_witness :
    ((mainRun main_fair_values_init
        (TradingState.mk 0
          [("RAINFOREST_RESIN", OrderDepth.mk [] [10000])] [])).2.lookup
      "RAINFOREST_RESIN" = none) ∧
      ((mainRun main_fair_values_init
          (TradingState.mk 0
            [("RAINFOREST_RESIN", OrderDepth.mk [] [10000])] [])).1
        "RAINFOREST_RESIN" = main_fair_values_init "RAINFOREST_RESIN") ∧
      ((arbRun []
          (TradingState.mk 0
            [("RAINFOREST_RESIN", OrderDepth.mk [] [10000])] [])).2.lookup
        "RAINFOREST_RESIN" = none) ∧
      ((arbRun []
          (TradingState.mk 0
            [("RAINFOREST_RESIN", OrderDepth.mk [] [10000])] [])).1 = []) := by
  have h := skip_one_sided_book main_fair_values_init []
    (TradingState.mk 0 [("RAINFOREST_RESIN", OrderDepth.mk [] [10000])] [])
    "RAINFOREST_RESIN" (OrderDepth.mk [] [10000]) (by decide) rfl (Or.inl rfl)
  exact ⟨h.1.1, h.1.2, h.2.1, h.2.2 rfl⟩

/-! ### C8 — result entries for every configured product? -/

/-- C8 (amended): the run is total, but the result mapping contains an entry
exactly for those configured products whose snapshot holds a two-sided book
this tick; a product that is absent from the order depths or has a one-sided
book gets *no* entry, not an empty order list (shown for `main.py` and
`mean_revert.py`). -/
theorem result_entry_iff_tradable :
    ∀ (fv : String → ℚ) (st : TradingState) (p : String), p ∈ products →
      (((mainRun fv st).2.lookup p).isSome = true ↔ tradable st p) ∧
      (((mrRun fv st).2.lookup p).isSome = true ↔ tradable st p) := by
  intro fv st p hp
  simp only [products, List.mem_cons, List.not_mem_nil, or_false] at hp
  rcases hp with rfl | rfl
  · constructor
    · simp only [mainRun, products, List.foldl]
      rw [mainRunProduct_lookup_ne st _ _ _
        (by decide : "RAINFOREST_RESIN" ≠ "KELP")]
      exact mainRunProduct_entry st (fv, []) _ rfl
    · simp only [mrRun, products, List.foldl]
      rw [mrRunProduct_lookup_ne st _ _ _
        (by decide : "RAINFOREST_RESIN" ≠ "KELP")]
      exact mrRunProduct_entry st (fv, []) _ rfl
  · constructor
    · simp only [mainRun, products, List.foldl]
      refine mainRunProduct_entry st _ _ ?_
      rw [mainRunProduct_lookup_ne st (fv, []) _ _
        (by decide : "KELP" ≠ "RAINFOREST_RESIN")]
      rfl
    · simp only [mrRun, products, List.foldl]
      refine mrRunProduct_entry st _ _ ?_
      rw [mrRunProduct_lookup_ne st (fv, []) _ _
        (by decide : "KELP" ≠ "RAINFOREST_RESIN")]
      rfl

set_option maxRecDepth 40000 in
theorem result_entry_iff_tradable_witness :
    (((mainRun main_fair_values_init
        (TradingState.mk 0 [("KELP", OrderDepth.mk [2000] [2001])] [])).2.lookup
      "KELP").isSome = true) ∧
      (((mrRun mr_fair_values_init
          (TradingState.mk 0 [("KELP", OrderDepth.mk [2000] [2001])] [])).2.lookup
        "KELP").isSome = true) :=
  ⟨(result_entry_iff_tradable main_fair_values_init
        (TradingState.mk 0 [("KELP", OrderDepth.mk [2000] [2001])] [])
        "KELP" (by decide)).1.mpr
      ⟨OrderDepth.mk [2000] [2001], rfl, by decide, by decide⟩,
   (result_entry_iff_tradable mr_fair_values_init
        (TradingState.mk 0 [("KELP", OrderDepth.mk [2000] [2001])] [])
        "KELP" (by decide)).2.mpr
      ⟨OrderDepth.mk [2000] [2001], rfl, by decide, by decide⟩⟩

/-- C8 counterexample: on a tick whose snapshot has no order depths at all,
`main.py` returns an *empty* result mapping — the configured product
RAINFOREST_RESIN has no entry (the claim requires an entry with a possibly
empty order list for every configured product). -/
theorem result_entry_counterexample :
    (mainRun main_fair_values_init (TradingState.mk 0 [] [])).2.lookup
        "RAINFOREST_RESIN" = none ∧
      "RAINFOREST_RESIN" ∈ products := by
  constructor
  · rfl
  · decide

/-! ### C1 — position limits versus emitted orders -/

/-- C1 (amended): under `|pos| ≤ L = 50`, every order emitted in UNWIND_LONG
or COVER_SHORT mode by `main.py` and `mean_revert.py` keeps the simulated
position inside `[-50, 50]`; each MARKET_MAKE leg is gated only by the sign of
the remaining headroom (every buy order implies `pos < L`, every sell order
implies `-L < pos`), not by whether the full order size still fits, so a
market-making leg can overshoot the limit. -/
theorem order_position_bounds :
    ∀ (mid fair : ℚ) (bb ba pos : ℤ) (product : String), |pos| ≤ 50 →
      ((decideMode mid fair (.ofRat (main_thresholds product)) pos ≠
            .marketMake →
          ∀ o ∈ mainOrders mid fair bb ba pos product,
            -50 ≤ pos + o.quantity ∧ pos + o.quantity ≤ 50) ∧
        (∀ o ∈ mainOrders mid fair bb ba pos product,
          (0 < o.quantity → pos < 50) ∧ (o.quantity < 0 → -50 < pos))) ∧
      ((decideMode mid (fair - pos * mr_inventory_adjustment_factor)
            (.ofRat (mr_base_thresholds product)) pos ≠ .marketMake →
          ∀ o ∈ mrOrders mid fair bb ba pos product,
            -50 ≤ pos + o.quantity ∧ pos + o.quantity ≤ 50) ∧
        (∀ o ∈ mrOrders mid fair bb ba pos product,
          (0 < o.quantity → pos < 50) ∧ (o.quantity < 0 → -50 < pos))) := by
  intro mid fair bb ba pos product hpos
  have h50 := abs_le.mp hpos
  have hdyn := mrDynamicSize_pos pos product
  refine ⟨⟨?_, ?_⟩, ?_, ?_⟩
  · intro hne o ho
    simp only [mainOrders, main_position_limits] at ho
    rcases hmode : decideMode mid fair (.ofRat (main_thresholds product)) pos with
      _ | _ | _ <;> rw [hmode] at ho <;> dsimp only at ho
    · have hp := (decideMode_eq_unwindLong hmode).2
      simp only [List.mem_singleton] at ho
      subst ho
      dsimp only
      omega
    · have hp := (decideMode_eq_coverShort hmode).2
      rw [abs_of_neg hp] at ho
      simp only [List.mem_singleton] at ho
      subst ho
      dsimp only
      omega
    · exact absurd hmode hne
  · intro o ho
    simp only [mainOrders, main_position_limits] at ho
    rcases hmode : decideMode mid fair (.ofRat (main_thresholds product)) pos with
      _ | _ | _ <;> rw [hmode] at ho <;> dsimp only at ho
    · have hp := (decideMode_eq_unwindLong hmode).2
      simp only [List.mem_singleton] at ho
      subst ho
      dsimp only
      constructor <;> intro <;> omega
    · have hp := (decideMode_eq_coverShort hmode).2
      rw [abs_of_neg hp] at ho
      simp only [List.mem_singleton] at ho
      subst ho
      dsimp only
      constructor <;> intro <;> omega
    · split_ifs at ho <;>
        simp only [List.mem_append, List.mem_singleton, List.not_mem_nil,
          or_false, false_or] at ho <;>
        first
          | (rcases ho with ho | ho <;> subst ho <;> dsimp only <;>
              constructor <;> intro <;> omega)
          | (subst ho
             dsimp only
             constructor <;> intro <;> omega)
  · intro hne o ho
    simp only [mrOrders, mr_position_limits] at ho
    rcases hmode : decideMode mid (fair - pos * mr_inventory_adjustment_factor)
        (.ofRat (mr_base_thresholds product)) pos with
      _ | _ | _ <;> rw [hmode] at ho <;> dsimp only at ho
    · have hp := (decideMode_eq_unwindLong hmode).2
      simp only [List.mem_singleton] at ho
      subst ho
      dsimp only
      omega
    · have hp := (decideMode_eq_coverShort hmode).2
      rw [abs_of_neg hp] at ho
      simp only [List.mem_singleton] at ho
      subst ho
      dsimp only
      omega
    · exact absurd hmode hne
  · intro o ho
    simp only [mrOrders, mr_position_limits] at ho
    rcases hmode : decideMode mid (fair - pos * mr_inventory_adjustment_factor)
        (.ofRat (mr_base_thresholds product)) pos with
      _ | _ | _ <;> rw [hmode] at ho <;> dsimp only at ho
    · have hp := (decideMode_eq_unwindLong hmode).2
      simp only [List.mem_singleton] at ho
      subst ho
      dsimp only
      constructor <;> intro <;> omega
    · have hp := (decideMode_eq_coverShort hmode).2
      rw [abs_of_neg hp] at ho
      simp only [List.mem_singleton] at ho
      subst ho
      dsimp only
      constructor <;> intro <;> omega
    · split_ifs at ho <;>
        simp only [List.mem_append, List.mem_singleton, List.not_mem_nil,
          or_false, false_or] at ho <;>
        first
          | (rcases ho with ho | ho <;> subst ho <;> dsimp only <;>
              constructor <;> intro <;> omega)
          | (subst ho
             dsimp only
             constructor <;> intro <;> omega)

set_option maxRecDepth 40000 in
theorem order_position_bounds_witness :
    (-50 ≤ -40 + (Order.mk "KELP" 2001 10).quantity ∧
        -40 + (Order.mk "KELP" 2001 10).quantity ≤ 50) ∧
      (-40 : ℤ) < 50 :=
  ⟨(order_position_bounds 2000.5 2025.7 2000 2001 (-40) "KELP"
        (by decide)).1.1
      (by with_unfolding_all decide) (Order.mk "KELP" 2001 10)
      (by with_unfolding_all decide),
   ((order_position_bounds 2000.5 2025.7 2000 2001 (-40) "KELP"
        (by decide)).1.2
      (Order.mk "KELP" 2001 10) (by with_unfolding_all decide)).1
     (by decide)⟩

set_option maxRecDepth 100000 in
/-- C1 counterexample: from the initial trader state of `main.py`, a KELP book
2028/2029 with position 49 (strictly inside the limit) still produces a
market-making buy of 18 units, which in isolation would push the position to
`49 + 18 = 67 > 50`. -/
theorem order_position_counterexample :
    (mainRun main_fair_values_init
        (TradingState.mk 0 [("KELP", OrderDepth.mk [2028] [2029])]
          [("KELP", 49)])).2 =
      [("KELP", [Order.mk "KELP" 2028 18, Order.mk "KELP" 2029 (-18)])] ∧
      ¬ (49 + (18 : ℤ) ≤ 50) := by
  constructor
  · with_unfolding_all decide
  · decide

/-! ### C2 — no zero-quantity orders? -/

/-- C2 (amended): under `|pos| ≤ 50`, every order emitted by `main.py` or
`mean_revert.py` has nonzero quantity except the COVER_SHORT leg when the
position is already exactly at the short limit `-50` (so `L - |p| = 0`): that
leg is *not* clamped away, a buy order of quantity zero is emitted. -/
theorem zero_quantity_only_cover_at_limit :
    ∀ (mid fair : ℚ) (bb ba pos : ℤ) (product : String), |pos| ≤ 50 →
      (∀ o ∈ mainOrders mid fair bb ba pos product,
          o.quantity = 0 → pos = -50) ∧
      (∀ o ∈ mrOrders mid fair bb ba pos product,
          o.quantity = 0 → pos = -50) := by
  intro mid fair bb ba pos product hpos
  have h50 := abs_le.mp hpos
  have hdyn := mrDynamicSize_pos pos product
  constructor
  · intro o ho hq
    simp only [mainOrders, main_position_limits] at ho
    rcases hmode : decideMode mid fair (.ofRat (main_thresholds product)) pos with
      _ | _ | _ <;> rw [hmode] at ho <;> dsimp only at ho
    · have hp := (decideMode_eq_unwindLong hmode).2
      simp only [List.mem_singleton] at ho
      subst ho
      dsimp only at hq
      omega
    · have hp := (decideMode_eq_coverShort hmode).2
      rw [abs_of_neg hp] at ho
      simp only [List.mem_singleton] at ho
      subst ho
      dsimp only at hq
      omega
    · split_ifs at ho <;>
        simp only [List.mem_append, List.mem_singleton, List.not_mem_nil,
          or_false, false_or] at ho <;>
        first
          | (rcases ho with ho | ho <;> subst ho <;> dsimp only at hq <;> omega)
          | (subst ho
             dsimp only at hq
             omega)
  · intro o ho hq
    simp only [mrOrders, mr_position_limits] at ho
    rcases hmode : decideMode mid (fair - pos * mr_inventory_adjustment_factor)
        (.ofRat (mr_base_thresholds product)) pos with
      _ | _ | _ <;> rw [hmode] at ho <;> dsimp only at ho
    · have hp := (decideMode_eq_unwindLong hmode).2
      simp only [List.mem_singleton] at ho
      subst ho
      dsimp only at hq
      omega
    · have hp := (decideMode_eq_coverShort hmode).2
      rw [abs_of_neg hp] at ho
      simp only [List.mem_singleton] at ho
      subst ho
      dsimp only at hq
      omega
    · split_ifs at ho <;>
        simp only [List.mem_append, List.mem_singleton, List.not_mem_nil,
          or_false, false_or] at ho <;>
        first
          | (rcases ho with ho | ho <;> subst ho <;> dsimp only at hq <;> omega)
          | (subst ho
             dsimp only at hq
             omega)

set_option maxRecDepth 40000 in
theorem zero_quantity_only_cover_at_limit_witness :
    (-50 : ℤ) = -50 :=
  (zero_quantity_only_cover_at_limit 2000.5 2025.7 2000 2001 (-50) "KELP"
      (by decide)).1
    (Order.mk "KELP" 2001 0) (by with_unfolding_all decide)
    (by decide)

set_option maxRecDepth 100000 in
/-- C2 counterexample: from the initial trader state of `main.py`, a KELP book
2000/2001 with position -50 triggers COVER_SHORT and the engine emits a buy
order whose quantity is `min(18, 50 - 50) = 0` — a zero-quantity order. -/
theorem zero_quantity_counterexample :
    (mainRun main_fair_values_init
        (TradingState.mk 0 [("KELP", OrderDepth.mk [2000] [2001])]
          [("KELP", -50)])).2 =
      [("KELP", [Order.mk "KELP" 2001 0])] ∧
      (Order.mk "KELP" 2001 0).quantity = 0 := by
  constructor
  · with_unfolding_all decide
  · decide

/-! ### C10 — market-making quote ordering and price coincidence -/

set_option maxRecDepth 40000 in
/-- C10: whenever a market-making branch emits both legs in one tick — gated
in `main.py`, unconditional in `arbitrary_regression.py` — the buy price
`round(mid - offset)` never exceeds the sell price `round(mid + offset)`
(every positive-quantity order is priced at or below every negative-quantity
order of the same tick); and with `offset = 0.5` and the integer mid 2030 both
of `main.py`'s legs round to the identical price 2030 under banker's
rounding. -/
theorem mm_buy_price_le_sell_price :
    (∀ (mid fair : ℚ) (bb ba pos : ℤ) (product : String) (b s : Order),
        b ∈ mainOrders mid fair bb ba pos product →
        s ∈ mainOrders mid fair bb ba pos product →
        0 < b.quantity → s.quantity < 0 → b.price ≤ s.price) ∧
      (∀ (mid fair : ℚ) (t : Thresh) (bb ba pos : ℤ) (product : String)
          (b s : Order),
        b ∈ arbOrders mid fair t bb ba pos product →
        s ∈ arbOrders mid fair t bb ba pos product →
        0 < b.quantity → s.quantity < 0 → b.price ≤ s.price) ∧
      (mainCore 2028.5 2029 2031 0 "KELP").2 =
        [Order.mk "KELP" 2030 18, Order.mk "KELP" 2030 (-18)] := by
  refine ⟨?_, ?_, ?_⟩
  · intro mid fair bb ba pos product b s hb hs hbq hsq
    simp only [mainOrders, main_position_limits] at hb hs
    rcases hmode : decideMode mid fair (.ofRat (main_thresholds product)) pos with
      _ | _ | _ <;> rw [hmode] at hb hs <;> dsimp only at hb hs
    · simp only [List.mem_singleton] at hb hs
      subst hb
      subst hs
      dsimp only at hbq hsq
      omega
    · simp only [List.mem_singleton] at hb hs
      subst hb
      subst hs
      dsimp only at hbq hsq
      omega
    · have hgap : (1 : ℚ) ≤ (mid + 1/2) - (mid - 1/2) := by norm_num
      split_ifs at hb hs with h1 h2 <;>
        simp only [List.mem_append, List.mem_singleton, List.not_mem_nil,
          or_false, false_or] at hb hs
      · rcases hb with hb | hb <;> rcases hs with hs | hs <;> subst hb <;>
          subst hs <;> dsimp only at hbq hsq ⊢ <;>
          first
          | omega
          | exact pythonRound_le_pythonRound hgap
      · subst hb
        subst hs
        dsimp only at hbq hsq
        omega
      · subst hb
        subst hs
        dsimp only at hbq hsq
        omega
  · intro mid fair t bb ba pos product b s hb hs hbq hsq
    simp only [arbOrders, arb_position_limits, arb_base_order_size,
      arb_offset] at hb hs
    rcases hmode : decideMode mid (fair - pos * arb_inventory_adjustment_factor)
        t pos with _ | _ | _ <;> rw [hmode] at hb hs <;> dsimp only at hb hs
    · simp only [List.mem_singleton] at hb hs
      subst hb
      subst hs
      dsimp only at hbq hsq
      omega
    · simp only [List.mem_singleton] at hb hs
      subst hb
      subst hs
      dsimp only at hbq hsq
      omega
    · have hgap : (1 : ℚ) ≤ (mid + 1/2) - (mid - 1/2) := by norm_num
      simp only [List.mem_cons, List.mem_singleton, List.not_mem_nil,
        or_false] at hb hs
      rcases hb with hb | hb <;> rcases hs with hs | hs <;> subst hb <;>
        subst hs <;> dsimp only at hbq hsq ⊢ <;>
        first
        | omega
        | exact pythonRound_le_pythonRound hgap
  · with_unfolding_all decide

set_option maxRecDepth 40000 in
theorem mm_buy_price_le_sell_price_witness :
    ((Order.mk "KELP" 2030 18).price ≤ (Order.mk "KELP" 2030 (-18)).price) ∧
      ((Order.mk "KELP" 2024 18).price ≤ (Order.mk "KELP" 2026 (-18)).price) :=
  ⟨mm_buy_price_le_sell_price.1 2030 (emaUpdate 2028.5 2030) 2029 2031 0 "KELP"
      (Order.mk "KELP" 2030 18) (Order.mk "KELP" 2030 (-18))
      (by with_unfolding_all decide) (by with_unfolding_all decide)
      (by decide) (by decide),
   mm_buy_price_le_sell_price.2.1 2025 2028.5 (.ofRat 2) 2020 2030 50 "KELP"
      (Order.mk "KELP" 2024 18) (Order.mk "KELP" 2026 (-18))
      (by with_unfolding_all decide) (by with_unfolding_all decide)
      (by decide) (by decide)⟩

end Prosperity
